import Mathlib

/-!
Verification of the classification-and-reconciliation pipeline of
`toggl_linux_rs` against its natural-language specification.

The Rust sources are shallowly embedded as follows:

* `f64` confidence values and match scores are modelled as `ℚ`; every
  arithmetic operation appearing in the embedded code paths is exact at
  the values the claims are about, so no rounding behaviour is lost.
* timestamps (`chrono::DateTime<Utc>`) and `std::time::Instant` are
  modelled as integer (respectively natural) numbers of seconds; the code
  only ever compares them, subtracts them, and truncates them to whole
  seconds (`num_seconds`, `with_nanosecond(0)`), which is the identity at
  this granularity.
* Rust `String` is Lean `String`; `str::to_lowercase` is a `Char.toLower`
  map (the titles and names in the claims are ASCII), `str::contains` is a
  character-level infix test (UTF-8 is self-synchronising, so byte-level
  and character-level substring search agree on valid strings), and
  `str::split_whitespace` is re-implemented character by character.
* `HashMap` iteration order is unspecified in Rust, so the functions that
  iterate over `title_counts` take the iteration order as an explicit
  `order : List String` parameter, constrained to be an enumeration
  (`ValidIterationOrder`) of the keys; theorems quantify over it.
* network calls are modelled by their outcomes, passed in as parameters:
  the fetched project list, the fetched time entries (`none` = transport
  error), the similarity-service verdict and the merge-update outcome.
-/

/-! ## String primitives (models of `str` methods used by the pipeline) -/

/-- Model of byte-level `str::starts_with` on character lists. -/
def isPrefixB : List Char → List Char → Bool
  | [], _ => true
  | _ :: _, [] => false
  | a :: as, b :: bs => a == b && isPrefixB as bs

/-- Model of `str::contains (needle)`: `needle` occurs contiguously in the
haystack. -/
def isInfixB (needle : List Char) : List Char → Bool
  | [] => isPrefixB needle []
  | c :: cs => isPrefixB needle (c :: cs) || isInfixB needle cs

/-- Model of `str::to_lowercase` (the strings the claims touch are ASCII,
where `Char.toLower` and Rust's Unicode lowercasing agree). -/
def to_lowercase (s : String) : String := ⟨s.data.map Char.toLower⟩

/-- Model of `s.contains(sub)`. -/
def containsStr (s sub : String) : Bool := isInfixB sub.data s.data

/-- Accumulator-based worker for `split_whitespace`. -/
def split_whitespace_aux : List Char → List Char → List String
  | [], [] => []
  | [], acc => [⟨acc.reverse⟩]
  | c :: cs, acc =>
    if c.isWhitespace then
      match acc with
      | [] => split_whitespace_aux cs []
      | _ => ⟨acc.reverse⟩ :: split_whitespace_aux cs []
    else split_whitespace_aux cs (c :: acc)

/-- Model of `str::split_whitespace` (maximal runs of non-whitespace
characters; empty pieces are dropped, exactly as in Rust). -/
def split_whitespace (s : String) : List String := split_whitespace_aux s.data []

/-! ## Configuration (src/config.rs, src/main.rs) -/

/-- Model of `GeneralConfig` (config.rs:24-43). -/
structure GeneralConfig where
  data_dir : String
  confidence_threshold : ℚ
  collect_interval_secs : ℕ
  time_block_division : ℕ
  idle_threshold_secs : ℕ
  deriving Repr, DecidableEq

/-- Model of `TogglConfig` (config.rs:46-53). -/
structure TogglConfig where
  api_token : String
  workspace_id : ℕ
  deriving Repr, DecidableEq

/-- Model of `OpenAIConfig` (config.rs:56-64). -/
structure OpenAIConfig where
  api_key : String
  model : String
  deriving Repr, DecidableEq

/-- Model of `GoogleCalendarConfig` (config.rs:67-80). -/
structure GoogleCalendarConfig where
  client_id : String
  client_secret : String
  refresh_token : String
  calendar_ids : String
  deriving Repr, DecidableEq

/-- Model of `AppConfig` (config.rs:8-21). -/
structure AppConfig where
  general : GeneralConfig
  toggl : TogglConfig
  openai : Option OpenAIConfig
  google_calendar : Option GoogleCalendarConfig
  deriving Repr, DecidableEq

/-- Model of `load_config` (config.rs:104-112) after the file has been read
and TOML-parsed (both are external I/O, modelled upstream): the parsed
configuration is returned as-is.  No field is validated — in particular
`time_block_division` is not checked against 60. -/
def load_config (parsed : AppConfig) : Except String AppConfig := .ok parsed

/-- Model of `minutes_per_block` as computed by `run_daemon`
(main.rs:156) and `register_to_toggl` (event.rs:610): unchecked integer
division `60 / division`.  Division by zero panics in Rust, modelled as
`none`; every other value flows on silently. -/
def minutes_per_block (division : ℕ) : Option ℕ :=
  if division = 0 then none else some (60 / division)

/-! ## Collected data (src/data_collector.rs) -/

/-- Model of `CalendarEvent` (data_collector.rs:38-57), times in seconds. -/
structure CalendarEvent where
  id : String
  title : String
  start_time : ℤ
  end_time : ℤ
  calendar_id : String
  description : Option String
  deriving Repr, DecidableEq

/-- Model of `WindowInfo` (data_collector.rs:19-35); `class` is a Lean
keyword, hence `win_class`. -/
structure WindowInfo where
  id : String
  title : String
  win_class : Option String
  pid : Option ℕ
  timestamp : ℤ
  deriving Repr, DecidableEq

/-- Model of `CollectedData` (data_collector.rs:60-73). -/
structure CollectedData where
  timestamp : ℤ
  window : WindowInfo
  calendar_events : List CalendarEvent
  is_idle : Bool
  deriving Repr, DecidableEq

/-- Mutable idle-tracking state of `DataCollector`
(data_collector.rs:75-83).  `Instant`s are seconds on a monotonic clock;
the unused `last_active` field is omitted.  `conn` and `config` carry no
decision logic. -/
structure DataCollectorState where
  idle_start : Option ℕ
  total_idle_time : ℕ
  block_start : ℕ
  deriving Repr, DecidableEq

/-- Idle threshold hard-coded in `DataCollector::new`
(data_collector.rs:94): 300 seconds, compared in milliseconds. -/
def idle_threshold_ms : ℕ := 300000

/-- Model of `DataCollector::is_idle` (data_collector.rs:102-127).
`reading` is the OS idle time in milliseconds, `none` when `UserIdle`
fails — in that case the whole body is skipped and `false` is returned
(fail-open).  Otherwise: enter idle when the threshold is exceeded,
accumulate the finished idle span when leaving idle, then reset all
accumulators if 900 seconds have elapsed since `block_start`. -/
def is_idle_step (st : DataCollectorState) (reading : Option ℕ) (now : ℕ) :
    Bool × DataCollectorState :=
  match reading with
  | none => (false, st)
  | some ms =>
    let is_idle := idle_threshold_ms < ms
    let st1 :=
      if is_idle ∧ st.idle_start = none then
        { st with idle_start := some now }
      else if ¬is_idle ∧ st.idle_start ≠ none then
        { st with
          idle_start := none
          total_idle_time :=
            st.total_idle_time + (now - st.idle_start.getD now) }
      else st
    let st2 :=
      if 900 ≤ now - st1.block_start then
        { st1 with block_start := now, total_idle_time := 0, idle_start := none }
      else st1
    (is_idle, st2)

/-- The "current total idle time" of `DataCollector::collect`
(data_collector.rs:134-138): accumulated idle time plus the in-progress
idle span, if any. -/
def current_idle_time (st : DataCollectorState) (now : ℕ) : ℕ :=
  st.total_idle_time + (match st.idle_start with | some s => now - s | none => 0)

/-- Model of `DataCollector::collect` (data_collector.rs:129-170) up to the
write decision: first `is_idle` updates the state, then the sample is
suppressed iff the current idle time reaches 450 seconds
(data_collector.rs:141).  The returned `Bool` is `true` when a sample is
collected and saved (window probing, calendar fetch and the SQLite insert
are external effects assumed to succeed). -/
def collect_step (st : DataCollectorState) (reading : Option ℕ) (now : ℕ) :
    Bool × DataCollectorState :=
  let r := is_idle_step st reading now
  if 450 ≤ current_idle_time r.2 now then (false, r.2) else (true, r.2)

/-! ## Local analysis (src/analysis.rs) -/

/-- Model of `ActivityCandidate` (analysis.rs:41-48). -/
structure ActivityCandidate where
  activity : String
  confidence : ℚ
  deriving Repr, DecidableEq

/-- Model of `AnalysisResult` (analysis.rs:19-38). -/
structure AnalysisResult where
  activity : String
  confidence : ℚ
  timestamp : ℤ
  alternatives : List ActivityCandidate
  window_title : Option String
  calendar_event : Option CalendarEvent
  deriving Repr, DecidableEq

/-- Model of `categorize_by_keywords` (analysis.rs:192-224): ordered
keyword rules, with browser titles refined by sub-keywords. -/
def categorize_by_keywords (title : String) : String :=
  let t := to_lowercase title
  if containsStr t "firefox" || containsStr t "chrome" || containsStr t "edge" then
    if containsStr t "gmail" || containsStr t "mail" then "メール確認"
    else if containsStr t "google doc" || containsStr t "document" then "ドキュメント作成"
    else if containsStr t "calendar" then "スケジュール確認"
    else if containsStr t "youtube" || containsStr t "video" then "動画視聴"
    else if containsStr t "chat" || containsStr t "slack" || containsStr t "discord" then
      "チャット/コミュニケーション"
    else "ウェブブラウジング"
  else if containsStr t "terminal" || containsStr t "console" || containsStr t "bash" then
    "ターミナル作業"
  else if containsStr t "code" || containsStr t "vscode" || containsStr t "intellij" then
    "プログラミング"
  else if containsStr t "libreoffice" || containsStr t "calc" || containsStr t "writer" then
    "オフィス作業"
  else if containsStr t "gimp" || containsStr t "photoshop" || containsStr t "illustrator" then
    "画像編集"
  else if containsStr t "meeting" || containsStr t "zoom" || containsStr t "teams" then
    "ミーティング"
  else "その他の活動"

/-- The multiplicity a lower-cased title has in `title_counts`
(analysis.rs:131-136): how many samples have that lower-cased window
title. -/
def title_count (data : List CollectedData) (t : String) : ℕ :=
  (data.map (fun d => to_lowercase d.window.title)).count t

/-- The lower-cased titles of the samples, in sample order — the key set
of the `title_counts` HashMap. -/
def lowered_titles (data : List CollectedData) : List String :=
  data.map (fun d => to_lowercase d.window.title)

/-- An admissible iteration order of the `title_counts` HashMap
(analysis.rs:140, analysis.rs:154): each key exactly once, in an
arbitrary order.  Rust leaves the order unspecified, so the embedding
quantifies over it. -/
def ValidIterationOrder (data : List CollectedData) (order : List String) : Prop :=
  order.Nodup ∧ (∀ t ∈ order, t ∈ lowered_titles data) ∧
    ∀ t ∈ lowered_titles data, t ∈ order

instance (data : List CollectedData) (order : List String) :
    Decidable (ValidIterationOrder data order) := by
  unfold ValidIterationOrder; infer_instance

/-- Model of the majority scan (analysis.rs:139-144): fold over the map
entries keeping the entry with the strictly largest count. -/
def most_frequent_scan (cnt : String → ℕ) : List String → String × ℕ → String × ℕ
  | [], best => best
  | t :: ts, best =>
    most_frequent_scan cnt ts (if best.2 < cnt t then (t, cnt t) else best)

/-- Model of the alternatives loop (analysis.rs:152-164): walk the map
entries whose title differs from the majority title, categorize each, and
stop once three alternatives have been pushed. -/
def local_alternatives (cnt : String → ℕ) (n : ℕ) (order : List String)
    (majority : String) : List ActivityCandidate :=
  ((order.filter (fun t => t ≠ majority)).take 3).map
    (fun t => ⟨categorize_by_keywords t, (cnt t : ℚ) / (n : ℚ)⟩)

/-- Model of the calendar-evidence search (analysis.rs:166-178): first
event over the samples (in order) whose interval contains `ts`. -/
def find_overlapping_event (ts : ℤ) : List CollectedData → Option CalendarEvent
  | [] => none
  | d :: rest =>
    match d.calendar_events.find?
        (fun e => decide (e.start_time ≤ ts) && decide (ts ≤ e.end_time)) with
    | some e => some e
    | none => find_overlapping_event ts rest

/-- Model of `analyze_locally` (analysis.rs:122-189).  `order` is the
iteration order of the `title_counts` HashMap.  Returns `none` for empty
input (`Err("No data to analyze")`). -/
def analyze_locally (order : List String) (data : List CollectedData) :
    Option AnalysisResult :=
  match data with
  | [] => none
  | d0 :: _ =>
    let cnt := fun t => title_count data t
    let mf := most_frequent_scan cnt order ("", 0)
    some
      { activity := categorize_by_keywords mf.1
        confidence := (mf.2 : ℚ) / (data.length : ℚ)
        timestamp := d0.timestamp
        alternatives := local_alternatives cnt data.length order mf.1
        window_title := some mf.1
        calendar_event := find_overlapping_event d0.timestamp data }

/-! ## Project matcher (src/event.rs `infer_project_id`) -/

/-- Model of `TogglProject` (event.rs:13-26). -/
structure TogglProject where
  id : ℕ
  name : String
  wid : ℕ
  cid : Option ℕ
  deriving Repr, DecidableEq

/-- One entry of `match_candidates` (event.rs:428, event.rs:511): project
id, project name and score.  The human-readable `match_reasons` strings
are logging only and are not modelled. -/
structure MatchCandidate where
  pid : ℕ
  name : String
  score : ℚ
  deriving Repr, DecidableEq

/-- Model of the per-project score of `infer_project_id`
(event.rs:452-507): exact match 1.0; project name contains the label 0.8;
label contains the project name 0.7; otherwise word overlap scaled by 0.6
(counting the project's words that occur among the label's words, divided
by the project word count — `project_words.len().max(1)`); plus 0.2 when
the evidence window title contains the project name and 0.3 when the
evidence calendar-event title contains it. -/
def match_score (activity : String) (window_title calendar_title : Option String)
    (project_name : String) : ℚ :=
  let project_name_lower := to_lowercase project_name
  let activity_lower := to_lowercase activity
  let base : ℚ :=
    if project_name_lower = activity_lower then 1
    else if containsStr project_name_lower activity_lower then 4/5
    else if containsStr activity_lower project_name_lower then 7/10
    else
      let project_words := split_whitespace project_name_lower
      let activity_words := split_whitespace activity_lower
      let matching_words :=
        (project_words.filter (fun w => activity_words.contains w)).length
      if 0 < matching_words then
        ((matching_words : ℚ) / (max project_words.length 1 : ℕ)) * (3/5)
      else 0
  let window_bonus : ℚ :=
    match window_title with
    | some wt => if containsStr (to_lowercase wt) project_name_lower then 1/5 else 0
    | none => 0
  let calendar_bonus : ℚ :=
    match calendar_title with
    | some ct => if containsStr (to_lowercase ct) project_name_lower then 3/10 else 0
    | none => 0
  base + window_bonus + calendar_bonus

/-- Stable descending insertion used to model `Vec::sort_by` with the
comparator `b.score.partial_cmp(&a.score)` (event.rs:516).  `sort_by` is
documented as a stable sort, which determines its output uniquely; a
stable insertion sort realises the same function. -/
def insert_desc (c : MatchCandidate) : List MatchCandidate → List MatchCandidate
  | [] => [c]
  | y :: ys => if y.score ≤ c.score then c :: y :: ys else y :: insert_desc c ys

/-- Stable descending sort of the candidate list (event.rs:516). -/
def sort_desc (l : List MatchCandidate) : List MatchCandidate :=
  l.foldr insert_desc []

/-- Model of `infer_project_id` (event.rs:411-537) given the fetched
project list: score every project, keep strictly positive scores in
listing order, sort stably by descending score, and return the top
candidate's id iff its score is at least 0.5. -/
def infer_project_id (projects : List TogglProject) (activity : String)
    (window_title calendar_title : Option String) : Option ℕ :=
  let match_candidates :=
    (projects.map (fun p =>
      ⟨p.id, p.name, match_score activity window_title calendar_title p.name⟩)).filter
      (fun c => (0 : ℚ) < c.score)
  match sort_desc match_candidates with
  | [] => none
  | best :: _ => if (1/2 : ℚ) ≤ best.score then some best.pid else none

/-! ## Reconciler (src/event.rs `register_to_toggl_impl`, src/toggl.rs) -/

/-- Model of `TogglTimeEntry` (event.rs:90-101), the entries fetched from
the ledger.  The raw `stop` is an optional RFC3339 string that is parsed
later (event.rs:879); it is modelled as `Option (Option ℤ)`: `none` =
absent, `some none` = present but unparseable, `some (some t)` = parses to
time `t`. -/
structure TogglTimeEntry where
  id : ℕ
  workspace_id : ℕ
  project_id : Option ℕ
  description : String
  start : ℤ
  stop : Option (Option ℤ)
  duration : ℤ
  deriving Repr, DecidableEq

/-- Model of the outgoing `TimeEntry` payload (event.rs:29-63,
toggl.rs:27-62).  The JSON `event_metadata` blob is constant and not
modelled. -/
structure TimeEntryReq where
  description : String
  wid : ℕ
  pid : Option ℕ
  start : ℤ
  stop : Option ℤ
  duration : Option ℤ
  created_with : Option String
  deriving Repr, DecidableEq

/-- Model of `create_simple_time_entry` (toggl.rs:277-299): the payload it
sends, with `duration = stop − start` in whole seconds. -/
def create_simple_time_entry (description : String) (workspace_id : ℕ)
    (start_time stop_time : ℤ) : TimeEntryReq :=
  { description := description
    wid := workspace_id
    pid := none
    start := start_time
    stop := some stop_time
    duration := some (stop_time - start_time)
    created_with := some "toggl_linux_rs" }

/-- Model of the private-browsing test of `register_to_toggl`
(event.rs:622-625): the lower-cased evidence window title contains
"private" or "incognito". -/
def is_private_browsing_of (window_title : Option String) : Bool :=
  match window_title with
  | some t =>
    containsStr (to_lowercase t) "private" || containsStr (to_lowercase t) "incognito"
  | none => false

/-- Model of the hard-coded auto-registration gate of
`analyze_and_register` (main.rs:254): register iff `confidence >= 0.5`.
`GeneralConfig.confidence_threshold` is never consulted here (nor anywhere
else in the registration path). -/
def analyze_and_register_gate (confidence : ℚ) : Bool :=
  mkRat 1 2 ≤ confidence

/-- Model of the project-equality test of the merge loop (event.rs:832-836):
same project id, or both entries without a project. -/
def same_project (pid epid : Option ℕ) : Bool :=
  match pid, epid with
  | some p1, some p2 => p1 == p2
  | none, none => true
  | _, _ => false

/-- Model of the adjacency test (event.rs:894-903): the absolute difference
between the (second-truncated) new start and the candidate's parsed stop
is at most 1800 seconds. -/
def within_adjacency (start_time last_stop : ℤ) : Bool :=
  (start_time - last_stop).natAbs ≤ 1800

/-- Model of the merge scan of `register_to_toggl_impl`
(event.rs:821-941) over the fetched entries, already reversed
(`entries.iter().rev()`, newest first).  `similar_ok cur prev` is the
verdict of the similarity branch (event.rs:847-876): `false` both when no
OpenAI key is configured and when the similarity call errors, otherwise
`similarity >= 0.10`.  The scan stops at the first entry that has a stop
time, the same project, an equal-or-similar description, and a parsed stop
within the adjacency window; entries failing any of those checks are
skipped and the scan continues. -/
def find_merge_candidate (similar_ok : String → String → Bool) (pid : Option ℕ)
    (activity : String) (start_time : ℤ) :
    List TogglTimeEntry → Option TogglTimeEntry
  | [] => none
  | e :: rest =>
    if e.stop.isSome && same_project pid e.project_id then
      if activity == e.description || similar_ok activity e.description then
        match e.stop with
        | some (some last_stop) =>
          if within_adjacency start_time last_stop then some e
          else find_merge_candidate similar_ok pid activity start_time rest
        | _ => find_merge_candidate similar_ok pid activity start_time rest
      else find_merge_candidate similar_ok pid activity start_time rest
    else find_merge_candidate similar_ok pid activity start_time rest

/-- Outcome of one run of `register_to_toggl_impl`. -/
inductive RegisterOutcome where
  | skipped_private
  | skipped_low_confidence
  | merged (entry_id : ℕ) (new_stop : ℤ)
  | created (entry : TimeEntryReq)
  deriving Repr, DecidableEq

/-- The new-entry payload built by `register_to_toggl_impl`
(event.rs:950-963). -/
def new_time_entry (activity : String) (workspace_id : ℕ) (pid : Option ℕ)
    (start_time stop_time : ℤ) : TimeEntryReq :=
  { description := activity
    wid := workspace_id
    pid := pid
    start := start_time
    stop := some stop_time
    duration := some (stop_time - start_time)
    created_with := some "toggl_linux_rs" }

/-- Model of `register_to_toggl_impl` (event.rs:753-971).  Network
outcomes are parameters: `projects` is the fetched project list,
`fetched_entries` the result of `get_time_entries` (`none` = transport
error, treated as "no candidates"), `similar_ok` the similarity verdict
and `update_ok e.id` whether the PUT that extends entry `e` succeeds
(2xx).  Skips when private browsing should be skipped or
`confidence < 0.5` (both hard-coded); otherwise merges into the first
eligible adjacent entry, falling back to creating a new entry when the
update fails — and creating one when no candidate matches. -/
def register_to_toggl_impl (projects : List TogglProject)
    (fetched_entries : Option (List TogglTimeEntry))
    (similar_ok : String → String → Bool) (update_ok : ℕ → Bool)
    (workspace_id : ℕ) (activity : String) (confidence : ℚ)
    (window_title : Option String) (calendar_title : Option String)
    (is_private_browsing : Bool) (start_time stop_time : ℤ)
    (should_skip_private : Bool) : RegisterOutcome :=
  if should_skip_private && is_private_browsing then .skipped_private
  else if confidence < mkRat 1 2 then .skipped_low_confidence
  else
    let project_id := infer_project_id projects activity window_title calendar_title
    let fresh := new_time_entry activity workspace_id project_id start_time stop_time
    match fetched_entries with
    | none => .created fresh
    | some entries =>
      match find_merge_candidate similar_ok project_id activity start_time
          entries.reverse with
      | some e => if update_ok e.id then .merged e.id stop_time else .created fresh
      | none => .created fresh

/-! ## Specification-side definitions for the refinement claims

These follow the wording of spec §4.5 (with the correction forced by the
counterexample for C2: the 0.8 and 0.7 substring rules swapped), not the
code's structure, and are compared with the embedded code above. -/

/-- First candidate attaining the maximal score, later candidates losing
ties — the extensional content of "ranked descending by score, ties
preserve original listing order, take the top". -/
def first_max : List MatchCandidate → Option MatchCandidate
  | [] => none
  | c :: rest =>
    match first_max rest with
    | none => some c
    | some m => if m.score ≤ c.score then some c else some m

/-- Score of spec §4.5 as amended: case-insensitive; 1.0 on exact
equality; 0.8 when the label is a substring of the project name; 0.7 when
the project name is a substring of the label; otherwise
(matching words / project-name word count) · 0.6, zero if no words match;
plus 0.2 if the evidence window title contains the project name and 0.3
if the evidence calendar event title contains the project name. -/
def spec_match_score_amended (label : String)
    (window_title calendar_title : Option String) (project_name : String) : ℚ :=
  let pn := to_lowercase project_name
  let lb := to_lowercase label
  let base : ℚ :=
    if pn = lb then 1
    else if containsStr pn lb then 4/5
    else if containsStr lb pn then 7/10
    else
      let pwords := split_whitespace pn
      let lwords := split_whitespace lb
      let matching := (pwords.filter (fun w => lwords.contains w)).length
      if 0 < matching then (matching : ℚ) / (pwords.length : ℚ) * (3/5) else 0
  let wbonus : ℚ :=
    match window_title with
    | some wt => if containsStr (to_lowercase wt) pn then 1/5 else 0
    | none => 0
  let cbonus : ℚ :=
    match calendar_title with
    | some ct => if containsStr (to_lowercase ct) pn then 3/10 else 0
    | none => 0
  base + wbonus + cbonus

/-- Selection of spec §4.5: among candidates with positive score, ranked
descending with ties won by the earlier-listed project, the top candidate
is chosen iff its score is at least 0.5. -/
def spec_infer_project_amended (projects : List TogglProject) (label : String)
    (window_title calendar_title : Option String) : Option ℕ :=
  let candidates :=
    (projects.map (fun p =>
      ⟨p.id, p.name, spec_match_score_amended label window_title calendar_title
        p.name⟩)).filter (fun c => (0 : ℚ) < c.score)
  match first_max candidates with
  | none => none
  | some best => if (1/2 : ℚ) ≤ best.score then some best.pid else none

/-! ## Concrete fixtures used by witnesses and counterexamples -/

/-- A sample with the given window title, no calendar events, timestamp 0. -/
def sample_titled (t : String) : CollectedData :=
  { timestamp := 0
    window := { id := "0x1", title := t, win_class := none, pid := none, timestamp := 0 }
    calendar_events := []
    is_idle := false }

/-- The input of spec §8's heuristic-classifier test vector. -/
def data_gmail : List CollectedData :=
  [sample_titled "Firefox - Gmail", sample_titled "Firefox - Gmail",
   sample_titled "Terminal"]

/-- Two distinct terminal titles: both categorize to "ターミナル作業". -/
def data_terminals : List CollectedData :=
  [sample_titled "Terminal alpha", sample_titled "Terminal alpha",
   sample_titled "Terminal beta"]

/-- The result `analyze_locally` computes on `data_terminals` under the
iteration order ["terminal alpha", "terminal beta"] (casts written in the
shape the definition produces, so that the equation is definitional). -/
def result_terminals : AnalysisResult :=
  { activity := "ターミナル作業"
    confidence := ((2 : ℕ) : ℚ) / ((3 : ℕ) : ℚ)
    timestamp := 0
    alternatives := [⟨"ターミナル作業", ((1 : ℕ) : ℚ) / ((3 : ℕ) : ℚ)⟩]
    window_title := some "terminal alpha"
    calendar_event := none }

/-- A parsed configuration whose `time_block_division` (7) does not divide
60. -/
def config_div7 : AppConfig :=
  { general :=
      { data_dir := "./data"
        confidence_threshold := mkRat 1 2
        collect_interval_secs := 60
        time_block_division := 7
        idle_threshold_secs := 300 }
    toggl := { api_token := "token", workspace_id := 1 }
    openai := none
    google_calendar := none }

/-- A fixture ledger entry used by witnesses: projectless, description
"work", stop at 600 seconds. -/
def entry_work : TogglTimeEntry :=
  { id := 7
    workspace_id := 1
    project_id := none
    description := "work"
    start := 0
    stop := some (some 600)
    duration := 600 }

/-- Eligibility-with-adjacency of a fetched entry, as checked by the merge
scan of `register_to_toggl_impl`: same project (or both projectless), a
parsed stop time, an equal-or-similar description, and a stop within the
adjacency window of the new start. -/
def EligibleInWindow (similar_ok : String → String → Bool) (pid : Option ℕ)
    (activity : String) (start_time : ℤ) (e : TogglTimeEntry) : Prop :=
  same_project pid e.project_id = true ∧
  (activity = e.description ∨ similar_ok activity e.description = true) ∧
  ∃ last_stop, e.stop = some (some last_stop) ∧
    within_adjacency start_time last_stop = true

/-! ## Theorems -/

/-- Helper: a duplicate-free list with exactly the members `a` and `b`
(`a ≠ b`) is one of the two enumerations of the pair.  Used to case-split
on HashMap iteration orders. -/
theorem eq_pair_of_nodup_of_mem_iff {α : Type} [DecidableEq α] {a b : α}
    (hab : a ≠ b) {l : List α} (hnd : l.Nodup)
    (hmem : ∀ s, s ∈ l ↔ s = a ∨ s = b) : l = [a, b] ∨ l = [b, a] := by
  match l with
  | [] =>
    exact absurd ((hmem a).2 (Or.inl rfl)) (by simp)
  | [x] =>
    have ha : a = x := by have := (hmem a).2 (Or.inl rfl); simpa using this
    have hb : b = x := by have := (hmem b).2 (Or.inr rfl); simpa using this
    exact absurd (ha.trans hb.symm) hab
  | x :: y :: rest =>
    simp only [List.nodup_cons, List.mem_cons] at hnd
    have hx : x = a ∨ x = b := (hmem x).1 (by simp)
    have hy : y = a ∨ y = b := (hmem y).1 (by simp)
    have hxy : x ≠ y := fun he => hnd.1 (Or.inl he)
    have hrest : ∀ z ∈ rest, False := by
      intro z hz
      have hzx : z ≠ x := fun he => hnd.1 (Or.inr (he ▸ hz))
      have hzy : z ≠ y := fun he => hnd.2.1 (he ▸ hz)
      have := (hmem z).1 (by simp [hz])
      rcases hx with hx | hx <;> rcases hy with hy | hy <;>
        rcases this with hz2 | hz2 <;> subst hx <;> subst hy <;>
          first
          | exact hxy rfl
          | exact hzx hz2
          | exact hzy hz2
    have hre : rest = [] := by
      cases hr : rest with
      | nil => rfl
      | cons z zs => exact absurd (hrest z (by simp [hr])) not_false
    subst hre
    rcases hx with hx | hx <;> rcases hy with hy | hy <;> subst hx <;> subst hy
    · exact absurd rfl hxy
    · exact Or.inl rfl
    · exact Or.inr rfl
    · exact absurd rfl hxy

/-- Claim C1 counterexample: `time_block_division = 7` does not divide 60,
yet loading the configuration succeeds and the daemon silently computes an
8-minute block (`60 / 7` rounded down) instead of failing with a
configuration error. -/
theorem load_config_accepts_nondividing_division :
    ¬ (7 ∣ 60) ∧
    load_config config_div7 = .ok config_div7 ∧
    minutes_per_block config_div7.general.time_block_division = some 8 :=
  ⟨by decide, rfl, rfl⟩

/-- Claim C1 as amended: loading a parsed configuration never fails,
whatever `time_block_division` holds; for every nonzero division the
daemon proceeds with `60 / division` minutes per block rounded down, and
that block length times the division recovers the full hour exactly when
the division divides 60 (division 0 is a division-by-zero panic, not a
configuration error). -/
theorem load_config_no_validation (c : AppConfig) (d : ℕ) (hd : d ≠ 0) :
    load_config c = .ok c ∧
    minutes_per_block d = some (60 / d) ∧
    (d ∣ 60 ↔ 60 / d * d = 60) := by
  refine ⟨rfl, by simp [minutes_per_block, hd], ?_, ?_⟩
  · intro h
    exact Nat.div_mul_cancel h
  · intro h
    exact ⟨60 / d, by rw [Nat.mul_comm, h]⟩

/-- Claim C1 amended, witness at `config_div7` and division 7. -/
theorem load_config_no_validation_witness :
    load_config config_div7 = .ok config_div7 ∧
    minutes_per_block 7 = some (60 / 7) ∧
    (7 ∣ 60 ↔ 60 / 7 * 7 = 60) :=
  load_config_no_validation config_div7 7 (by decide)

/-- Claim C7: a collection tick is suppressed exactly when the
accumulated idle time (including any in-progress idle span, measured after
the idle-state update) reaches 450 seconds, the boundary itself
suppressing; strictly below 450 the sample is collected and saved. -/
theorem collect_idle_suppression (st : DataCollectorState) (reading : Option ℕ)
    (now : ℕ) :
    ((collect_step st reading now).1 = false ↔
      450 ≤ current_idle_time (is_idle_step st reading now).2 now) ∧
    ((collect_step st reading now).1 = true ↔
      current_idle_time (is_idle_step st reading now).2 now < 450) := by
  simp only [collect_step]
  by_cases h : 450 ≤ current_idle_time (is_idle_step st reading now).2 now
  · rw [if_pos h]
    exact ⟨⟨fun _ => h, fun _ => rfl⟩,
      ⟨fun hc => absurd hc (by simp), fun hlt => absurd h (by omega)⟩⟩
  · rw [if_neg h]
    exact ⟨⟨fun hc => absurd hc (by simp), fun hle => absurd hle h⟩,
      ⟨fun _ => by omega, fun _ => rfl⟩⟩

/-- Claim C9: the adjacency test is two-sided — an eligible entry whose
stop time lies `d ≤ 1800` seconds after the new start is accepted as a
merge candidate exactly like one whose stop lies `d` seconds before it. -/
theorem adjacency_window_two_sided (similar_ok : String → String → Bool)
    (pid : Option ℕ) (activity : String) (start_time d : ℤ)
    (e e' : TogglTimeEntry) (hd : d.natAbs ≤ 1800)
    (hstop : e.stop = some (some (start_time + d)))
    (hstop' : e'.stop = some (some (start_time - d)))
    (hproj : same_project pid e.project_id = true)
    (hproj' : same_project pid e'.project_id = true)
    (hdesc : e.description = activity) (hdesc' : e'.description = activity) :
    find_merge_candidate similar_ok pid activity start_time [e] = some e ∧
    find_merge_candidate similar_ok pid activity start_time [e'] = some e' := by
  constructor
  · unfold find_merge_candidate
    rw [hstop, hdesc]
    have hw : within_adjacency start_time (start_time + d) = true := by
      unfold within_adjacency
      simp only [decide_eq_true_eq]
      omega
    simp [hproj, hw]
  · unfold find_merge_candidate
    rw [hstop', hdesc']
    have hw : within_adjacency start_time (start_time - d) = true := by
      unfold within_adjacency
      simp only [decide_eq_true_eq]
      omega
    simp [hproj', hw]

/-- Claim C9, witness: stop 20 minutes after the new start and stop
20 minutes before it both merge. -/
theorem adjacency_window_two_sided_witness :
    find_merge_candidate (fun _ _ => false) none "work" 900
      [{ id := 7, workspace_id := 1, project_id := none, description := "work",
         start := 0, stop := some (some (900 + 1200)), duration := 0 }] =
      some { id := 7, workspace_id := 1, project_id := none, description := "work",
             start := 0, stop := some (some (900 + 1200)), duration := 0 } ∧
    find_merge_candidate (fun _ _ => false) none "work" 900
      [{ id := 8, workspace_id := 1, project_id := none, description := "work",
         start := 0, stop := some (some (900 - 1200)), duration := 0 }] =
      some { id := 8, workspace_id := 1, project_id := none, description := "work",
             start := 0, stop := some (some (900 - 1200)), duration := 0 } :=
  adjacency_window_two_sided (fun _ _ => false) none "work" 900 1200 _ _
    (by decide) rfl rfl (by decide) (by decide) rfl rfl

/-- Claim C4 (code bug): the registration path compares confidence against
the hard-coded constant 0.5 and never reads the configured
`confidence_threshold`.  With a configured threshold of 0.8, a confidence
of 0.6 — which the claim says must be skipped — passes both the
`analyze_and_register` gate and `register_to_toggl_impl`, and a ledger
entry is written; the boundary that is inclusive is the hard-coded 0.5,
shown by the last two runs. -/
theorem confidence_gate_hardcoded :
    (mkRat 3 5 < mkRat 4 5) ∧
    analyze_and_register_gate (mkRat 3 5) = true ∧
    register_to_toggl_impl [] (some []) (fun _ _ => false) (fun _ => true) 1
      "work" (mkRat 3 5) none none false 0 900 true =
      .created (new_time_entry "work" 1 none 0 900) ∧
    register_to_toggl_impl [] (some []) (fun _ _ => false) (fun _ => true) 1
      "work" (mkRat 1 2) none none false 0 900 true =
      .created (new_time_entry "work" 1 none 0 900) ∧
    register_to_toggl_impl [] (some []) (fun _ _ => false) (fun _ => true) 1
      "work" (mkRat 49 100) none none false 0 900 true =
      .skipped_low_confidence :=
  ⟨by decide, by decide, rfl, rfl, rfl⟩

/-- Helper: the merge scan finds a candidate whenever some entry of the
list is eligible and within the adjacency window, and what it finds is
itself such an entry. -/
theorem find_merge_candidate_of_exists (similar_ok : String → String → Bool)
    (pid : Option ℕ) (activity : String) (start_time : ℤ)
    (l : List TogglTimeEntry)
    (h : ∃ e ∈ l, EligibleInWindow similar_ok pid activity start_time e) :
    ∃ e, find_merge_candidate similar_ok pid activity start_time l = some e ∧
      e ∈ l ∧ EligibleInWindow similar_ok pid activity start_time e := by
  induction l with
  | nil => obtain ⟨e, he, _⟩ := h; exact absurd he (by simp)
  | cons x rest ih =>
    by_cases hx : EligibleInWindow similar_ok pid activity start_time x
    · obtain ⟨hproj, hmatch, ls, hstop, hadj⟩ := hx
      refine ⟨x, ?_, by simp, hproj, hmatch, ls, hstop, hadj⟩
      unfold find_merge_candidate
      rw [hstop]
      have hmatch2 :
          (activity == x.description || similar_ok activity x.description) = true := by
        rcases hmatch with hm | hm
        · simp [hm]
        · simp [hm]
      simp [hproj, hmatch2, hadj]
    · have hrest : ∃ e ∈ rest, EligibleInWindow similar_ok pid activity start_time e := by
        obtain ⟨e, he, helig⟩ := h
        rcases List.mem_cons.1 he with he | he
        · exact absurd (he ▸ helig) hx
        · exact ⟨e, he, helig⟩
      obtain ⟨e, hfind, hmem, helig⟩ := ih hrest
      refine ⟨e, ?_, List.mem_cons_of_mem x hmem, helig⟩
      unfold find_merge_candidate
      by_cases h1 : (x.stop.isSome && same_project pid x.project_id) = true
      · rw [if_pos h1]
        by_cases h2 : (activity == x.description || similar_ok activity x.description) = true
        · rw [if_pos h2]
          match hstop : x.stop with
          | none => exact hfind
          | some none => exact hfind
          | some (some ls) =>
            by_cases h3 : within_adjacency start_time ls = true
            · exfalso
              apply hx
              refine ⟨?_, ?_, ls, hstop, h3⟩
              · have h1' : x.stop.isSome = true ∧
                    same_project pid x.project_id = true := by simpa using h1
                exact h1'.2
              · rcases Bool.or_eq_true_iff.1 h2 with hm | hm
                · exact Or.inl (by simpa using hm)
                · exact Or.inr hm
            · show (if within_adjacency start_time ls = true then some x
                else find_merge_candidate similar_ok pid activity start_time rest) =
                some e
              rw [if_neg h3]
              exact hfind
        · rw [if_neg h2]
          exact hfind
      · rw [if_neg h1]
        exact hfind

/-- Claim C3: when a run that is not skipped fetches entries among which
some candidate is eligible (same inferred project or both projectless,
parsed stop time, equivalent description) with its stop inside the
adjacency window of the new start, the reconciler picks such an entry: if
the transport-level update succeeds the outcome is exactly a merge
extending that entry's stop to the new stop (no entry is created), and if
the update fails the outcome falls back to creating the new entry — never
an error. -/
theorem merge_extends_or_falls_back (projects : List TogglProject)
    (entries : List TogglTimeEntry) (similar_ok : String → String → Bool)
    (update_ok : ℕ → Bool) (workspace_id : ℕ) (activity : String)
    (confidence : ℚ) (window_title calendar_title : Option String)
    (is_private : Bool) (start_time stop_time : ℤ) (should_skip_private : Bool)
    (hpriv : (should_skip_private && is_private) = false)
    (hconf : ¬ confidence < mkRat 1 2)
    (helig : ∃ e ∈ entries.reverse,
      EligibleInWindow similar_ok
        (infer_project_id projects activity window_title calendar_title)
        activity start_time e) :
    ∃ e, e ∈ entries ∧
      EligibleInWindow similar_ok
        (infer_project_id projects activity window_title calendar_title)
        activity start_time e ∧
      (update_ok e.id = true →
        register_to_toggl_impl projects (some entries) similar_ok update_ok
          workspace_id activity confidence window_title calendar_title is_private
          start_time stop_time should_skip_private = .merged e.id stop_time) ∧
      (update_ok e.id = false →
        register_to_toggl_impl projects (some entries) similar_ok update_ok
          workspace_id activity confidence window_title calendar_title is_private
          start_time stop_time should_skip_private =
          .created (new_time_entry activity workspace_id
            (infer_project_id projects activity window_title calendar_title)
            start_time stop_time)) := by
  obtain ⟨e, hfind, hmem, heligE⟩ :=
    find_merge_candidate_of_exists similar_ok
      (infer_project_id projects activity window_title calendar_title)
      activity start_time entries.reverse helig
  refine ⟨e, List.mem_reverse.1 hmem, heligE, ?_, ?_⟩ <;> intro hupd <;>
    · simp only [register_to_toggl_impl, hpriv, Bool.false_eq_true, if_false,
        if_neg hconf]
      rw [hfind]
      simp [hupd]

/-- Claim C3, witness: one fetched entry with matching description, no
project on either side, stop 300 seconds before the new start, and a
succeeding update: the outcome is the merge extending that entry. -/
theorem merge_extends_or_falls_back_witness :
    ∃ e, e ∈ [entry_work] ∧
      EligibleInWindow (fun _ _ => false) (infer_project_id [] "work" none none)
        "work" 900 e ∧
      ((fun _ => true) e.id = true →
        register_to_toggl_impl [] (some [entry_work]) (fun _ _ => false)
          (fun _ => true) 1 "work" (mkRat 3 4) none none false 900 1800 true =
          .merged e.id 1800) ∧
      ((fun _ => true) e.id = false →
        register_to_toggl_impl [] (some [entry_work]) (fun _ _ => false)
          (fun _ => true) 1 "work" (mkRat 3 4) none none false 900 1800 true =
          .created (new_time_entry "work" 1 (infer_project_id [] "work" none none)
            900 1800)) :=
  merge_extends_or_falls_back [] [entry_work] (fun _ _ => false)
    (fun _ => true) 1 "work" (mkRat 3 4) none none false 900 1800 true
    (by decide) (by decide)
    ⟨entry_work, by simp, by decide, Or.inl rfl, 600, rfl, by decide⟩

/-- Claim C8: every entry the system creates carries
`duration = stop − start` in whole seconds — both through
`create_simple_time_entry` and through the create path of
`register_to_toggl_impl`. -/
theorem created_duration_is_stop_minus_start (description : String)
    (workspace_id : ℕ) (s t : ℤ) (projects : List TogglProject)
    (fetched_entries : Option (List TogglTimeEntry))
    (similar_ok : String → String → Bool) (update_ok : ℕ → Bool) (wid2 : ℕ)
    (activity : String) (confidence : ℚ)
    (window_title calendar_title : Option String) (is_private : Bool)
    (start_time stop_time : ℤ) (should_skip_private : Bool) (te : TimeEntryReq)
    (hcreated : register_to_toggl_impl projects fetched_entries similar_ok
      update_ok wid2 activity confidence window_title calendar_title is_private
      start_time stop_time should_skip_private = .created te) :
    (create_simple_time_entry description workspace_id s t).duration =
      some (t - s) ∧
    te.duration = some (stop_time - start_time) := by
  refine ⟨rfl, ?_⟩
  simp only [register_to_toggl_impl] at hcreated
  repeat' split at hcreated
  all_goals
    first
      | exact RegisterOutcome.noConfusion hcreated
      | (injection hcreated with h
         subst h
         rfl)

/-- Claim C8, witness: a concrete creation through both constructors. -/
theorem created_duration_is_stop_minus_start_witness :
    (create_simple_time_entry "meeting" 3 100 1000).duration =
      some (1000 - 100) ∧
    (new_time_entry "work" 1 (infer_project_id [] "work" none none) 0
      900).duration = some (900 - 0) :=
  created_duration_is_stop_minus_start "meeting" 3 100 1000 [] (some [])
    (fun _ _ => false) (fun _ => true) 1 "work" (mkRat 1 1) none none false 0 900
    true (new_time_entry "work" 1 (infer_project_id [] "work" none none) 0 900)
    rfl

/-- Helper: the head of a stable descending insertion is the inserted
element exactly when it beats-or-ties the old head. -/
theorem head_insert_desc (c : MatchCandidate) (l : List MatchCandidate) :
    (insert_desc c l).head? =
      some (match l.head? with
        | none => c
        | some y => if y.score ≤ c.score then c else y) := by
  cases l with
  | nil => rfl
  | cons y ys =>
    unfold insert_desc
    by_cases h : y.score ≤ c.score
    · rw [if_pos h]
      simp [h]
    · rw [if_neg h]
      simp [h]

/-- Helper: the head of the stable descending sort is the first candidate
attaining the maximal score. -/
theorem head_sort_desc (l : List MatchCandidate) :
    (sort_desc l).head? = first_max l := by
  induction l with
  | nil => rfl
  | cons c rest ih =>
    show (insert_desc c (sort_desc rest)).head? = first_max (c :: rest)
    rw [head_insert_desc]
    show some (match (sort_desc rest).head? with
        | none => c
        | some y => if y.score ≤ c.score then c else y) =
      match first_max rest with
      | none => some c
      | some m => if m.score ≤ c.score then some c else some m
    rw [← ih]
    cases hs : (sort_desc rest).head? with
    | none => rfl
    | some y =>
      show some (if y.score ≤ c.score then c else y) =
        if y.score ≤ c.score then some c else some y
      by_cases h : y.score ≤ c.score
      · rw [if_pos h, if_pos h]
      · rw [if_neg h, if_neg h]

/-- Helper: the code's per-project score agrees everywhere with the
amended spec formula (the only structural differences are the defensive
`max(word count, 1)` denominator, irrelevant once a word matched, and the
swapped reading of the two substring rules). -/
theorem match_score_eq_spec (activity : String) (wt ct : Option String)
    (pn : String) :
    match_score activity wt ct pn = spec_match_score_amended activity wt ct pn := by
  simp only [match_score, spec_match_score_amended]
  congr 2
  split_ifs with h1 h2 h3 h4
  · rfl
  · rfl
  · rfl
  · have hm : 0 <
        ((split_whitespace (to_lowercase pn)).filter
          (fun w => (split_whitespace (to_lowercase activity)).contains w)).length :=
      h4
    have hlen : 1 ≤ (split_whitespace (to_lowercase pn)).length := by
      have := List.length_filter_le
        (fun w => (split_whitespace (to_lowercase activity)).contains w)
        (split_whitespace (to_lowercase pn))
      omega
    rw [Nat.max_eq_left hlen]
  · rfl

/-- Claim C2 counterexample: with project "report" and label
"writing report" the project name is a substring of the label (and they
are not equal), so the claim assigns base score 0.8; the code assigns
0.7 (its 0.8 branch fires when the *project name contains the label*, the
reverse of the claim). -/
theorem substring_rules_swapped_counterexample :
    to_lowercase "report" ≠ to_lowercase "writing report" ∧
    containsStr (to_lowercase "writing report") (to_lowercase "report") = true ∧
    match_score "writing report" none none "report" = 7/10 ∧
    (7/10 : ℚ) ≠ 4/5 := by
  refine ⟨by decide, by decide, ?_, by norm_num⟩
  simp only [match_score]
  rw [if_neg (by decide), if_neg (by decide), if_pos (by decide)]
  show (7/10 : ℚ) + 0 + 0 = 7/10
  norm_num

/-- Claim C2 as amended (substring rules swapped to match the code; all
other parts as claimed): the code's project inference equals the spec
procedure — score each project case-insensitively (1.0 exact; 0.8 label
inside project name; 0.7 project name inside label; otherwise word
overlap · 0.6, zero if none; +0.2 / +0.3 evidence bonuses), keep the
positive scores in listing order, rank descending with ties won by the
earlier-listed project, and select the top candidate iff its score is at
least 0.5. -/
theorem infer_project_matches_spec (projects : List TogglProject)
    (activity : String) (wt ct : Option String) :
    infer_project_id projects activity wt ct =
      spec_infer_project_amended projects activity wt ct := by
  simp only [infer_project_id, spec_infer_project_amended, match_score_eq_spec]
  generalize (projects.map (fun p =>
    (⟨p.id, p.name, spec_match_score_amended activity wt ct p.name⟩ :
      MatchCandidate))).filter (fun c => (0 : ℚ) < c.score) = cands
  have h := head_sort_desc cands
  cases hs : sort_desc cands with
  | nil =>
    rw [hs] at h
    rw [← h]
    rfl
  | cons b rest =>
    rw [hs] at h
    rw [← h]
    rfl

/-- Helper: unfolding equation of `analyze_locally` on non-empty input. -/
theorem analyze_locally_cons (order : List String) (d0 : CollectedData)
    (rest : List CollectedData) :
    analyze_locally order (d0 :: rest) = some
      { activity := categorize_by_keywords
          (most_frequent_scan (fun t => title_count (d0 :: rest) t) order ("", 0)).1
        confidence :=
          ((most_frequent_scan (fun t => title_count (d0 :: rest) t) order
            ("", 0)).2 : ℚ) / ((d0 :: rest).length : ℚ)
        timestamp := d0.timestamp
        alternatives := local_alternatives (fun t => title_count (d0 :: rest) t)
          (d0 :: rest).length order
          (most_frequent_scan (fun t => title_count (d0 :: rest) t) order ("", 0)).1
        window_title :=
          some (most_frequent_scan (fun t => title_count (d0 :: rest) t) order ("", 0)).1
        calendar_event := find_overlapping_event d0.timestamp (d0 :: rest) } := rfl

/-- Helper: the count kept by the majority scan is the maximum of the
initial count and all counts seen. -/
theorem most_frequent_scan_snd (cnt : String → ℕ) (order : List String)
    (best : String × ℕ) :
    (most_frequent_scan cnt order best).2 =
      max best.2 ((order.map cnt).foldr max 0) := by
  induction order generalizing best with
  | nil => simp [most_frequent_scan]
  | cons t ts ih =>
    show (most_frequent_scan cnt ts (if best.2 < cnt t then (t, cnt t) else best)).2 = _
    rw [ih]
    simp only [List.map_cons, List.foldr_cons]
    by_cases h : best.2 < cnt t
    · rw [if_pos h]
      rw [Nat.max_eq_right (le_trans (Nat.le_of_lt h) (Nat.le_max_left _ _))]
    · rw [if_neg h]
      rw [← Nat.max_assoc, Nat.max_eq_left (Nat.le_of_not_lt h)]

/-- Helper: the majority scan returns either the initial accumulator or a
pair `(t, cnt t)` with `t` among the scanned keys. -/
theorem most_frequent_scan_mem (cnt : String → ℕ) (order : List String)
    (best : String × ℕ) :
    most_frequent_scan cnt order best = best ∨
      ∃ t ∈ order, most_frequent_scan cnt order best = (t, cnt t) := by
  induction order generalizing best with
  | nil => exact Or.inl rfl
  | cons t ts ih =>
    have key : most_frequent_scan cnt (t :: ts) best =
        most_frequent_scan cnt ts (if best.2 < cnt t then (t, cnt t) else best) := rfl
    rw [key]
    by_cases h : best.2 < cnt t
    · rw [if_pos h]
      rcases ih (t, cnt t) with h2 | ⟨u, hu, h2⟩
      · exact Or.inr ⟨t, by simp, h2⟩
      · exact Or.inr ⟨u, by simp [hu], h2⟩
    · rw [if_neg h]
      rcases ih best with h2 | ⟨u, hu, h2⟩
      · exact Or.inl h2
      · exact Or.inr ⟨u, by simp [hu], h2⟩

/-- Helper: every scanned key's count is bounded by the fold maximum. -/
theorem count_le_foldr_max (cnt : String → ℕ) (order : List String) (t : String)
    (h : t ∈ order) : cnt t ≤ (order.map cnt).foldr max 0 := by
  induction order with
  | nil => exact absurd h (by simp)
  | cons u us ih =>
    simp only [List.map_cons, List.foldr_cons]
    rcases List.mem_cons.1 h with h | h
    · subst h; exact Nat.le_max_left _ _
    · exact le_trans (ih h) (Nat.le_max_right _ _)

/-- Claim C10: on non-empty input the primary confidence is the majority
title's count over the sample count and lies in (0, 1]; there are at most
three alternatives, and each alternative's confidence is its own title's
count over the sample count, strictly positive, and at most the primary
confidence. -/
theorem heuristic_confidence_invariants (data : List CollectedData)
    (order : List String) (r : AnalysisResult) (hne : data ≠ [])
    (hord : ValidIterationOrder data order)
    (h : analyze_locally order data = some r) :
    ∃ majority, r.window_title = some majority ∧
      r.confidence = (title_count data majority : ℚ) / (data.length : ℚ) ∧
      0 < r.confidence ∧ r.confidence ≤ 1 ∧
      r.alternatives.length ≤ 3 ∧
      ∀ alt ∈ r.alternatives, ∃ t, t ≠ majority ∧
        alt.activity = categorize_by_keywords t ∧
        alt.confidence = (title_count data t : ℚ) / (data.length : ℚ) ∧
        0 < alt.confidence ∧ alt.confidence ≤ r.confidence := by
  obtain ⟨d0, rest, rfl⟩ : ∃ d0 rest, data = d0 :: rest := by
    cases data with
    | nil => exact absurd rfl hne
    | cons d0 rest => exact ⟨d0, rest, rfl⟩
  rw [analyze_locally_cons] at h
  injection h with h
  subst h
  set cnt := fun t => title_count (d0 :: rest) t with hcnt
  set mf := most_frequent_scan cnt order ("", 0) with hmf
  set M := (order.map cnt).foldr max 0 with hM
  have hn : (0 : ℚ) < ((d0 :: rest).length : ℚ) := by
    simp only [List.length_cons]
    positivity
  have ht0 : to_lowercase d0.window.title ∈ lowered_titles (d0 :: rest) := by
    simp [lowered_titles]
  have ht0o : to_lowercase d0.window.title ∈ order := hord.2.2 _ ht0
  have hcount_mem : ∀ t ∈ order, 1 ≤ cnt t := by
    intro t ht
    have htl : t ∈ lowered_titles (d0 :: rest) := hord.2.1 t ht
    have : 0 < (lowered_titles (d0 :: rest)).count t := List.count_pos_iff.2 htl
    simpa [hcnt, title_count, lowered_titles] using this
  have hcount_le : ∀ t, cnt t ≤ (d0 :: rest).length := by
    intro t
    have := List.count_le_length t (lowered_titles (d0 :: rest))
    simpa [hcnt, title_count, lowered_titles] using this
  have hsnd : mf.2 = M := by
    rw [hmf, most_frequent_scan_snd]
    exact Nat.zero_max _
  have hM1 : 1 ≤ M := le_trans (hcount_mem _ ht0o) (count_le_foldr_max cnt order _ ht0o)
  have hform : ∃ t ∈ order, mf = (t, cnt t) := by
    rcases most_frequent_scan_mem cnt order ("", 0) with h2 | h2
    · exfalso
      have : mf.2 = 0 := by rw [hmf, h2]
      omega
    · exact h2
  obtain ⟨maj, hmajo, hmaj⟩ := hform
  have hmaj1 : mf.1 = maj := by rw [hmaj]
  have hmaj2 : mf.2 = cnt maj := by rw [hmaj]
  have hmajcnt : 1 ≤ cnt maj := hcount_mem _ hmajo
  refine ⟨maj, by rw [hmaj1], by rw [hmaj2, hmaj1], ?_, ?_, ?_, ?_⟩
  · show (0 : ℚ) < (mf.2 : ℚ) / ((d0 :: rest).length : ℚ)
    apply div_pos _ hn
    rw [hmaj2]
    exact_mod_cast hmajcnt
  · show (mf.2 : ℚ) / ((d0 :: rest).length : ℚ) ≤ 1
    rw [div_le_one hn]
    rw [hmaj2]
    exact_mod_cast hcount_le maj
  · show (local_alternatives cnt (d0 :: rest).length order mf.1).length ≤ 3
    unfold local_alternatives
    rw [List.length_map]
    exact le_trans (List.length_take_le _ _) (le_refl 3)
  · intro alt halt
    unfold local_alternatives at halt
    rw [List.mem_map] at halt
    obtain ⟨t, ht, halt⟩ := halt
    have htf : t ∈ (order.filter (fun t => t ≠ mf.1)) := List.mem_of_mem_take ht
    rw [List.mem_filter] at htf
    have hto : t ∈ order := htf.1
    have htne : t ≠ maj := by
      have := of_decide_eq_true htf.2
      rw [← hmaj1]
      exact this
    refine ⟨t, htne, ?_, ?_, ?_, ?_⟩
    · rw [← halt]
    · rw [← halt]
    · rw [← halt]
      show (0 : ℚ) < (cnt t : ℚ) / ((d0 :: rest).length : ℚ)
      apply div_pos _ hn
      exact_mod_cast hcount_mem t hto
    · rw [← halt]
      show (cnt t : ℚ) / ((d0 :: rest).length : ℚ) ≤
        (mf.2 : ℚ) / ((d0 :: rest).length : ℚ)
      rw [div_le_div_iff_of_pos_right hn]
      have : cnt t ≤ M := count_le_foldr_max cnt order t hto
      rw [hsnd]
      exact_mod_cast this

/-- Claim C10, witness: the terminal fixture under one concrete iteration
order. -/
theorem heuristic_confidence_invariants_witness :
    ∃ majority, result_terminals.window_title = some majority ∧
      result_terminals.confidence =
        (title_count data_terminals majority : ℚ) / (data_terminals.length : ℚ) ∧
      0 < result_terminals.confidence ∧ result_terminals.confidence ≤ 1 ∧
      result_terminals.alternatives.length ≤ 3 ∧
      ∀ alt ∈ result_terminals.alternatives, ∃ t, t ≠ majority ∧
        alt.activity = categorize_by_keywords t ∧
        alt.confidence =
          (title_count data_terminals t : ℚ) / (data_terminals.length : ℚ) ∧
        0 < alt.confidence ∧ alt.confidence ≤ result_terminals.confidence :=
  heuristic_confidence_invariants data_terminals
    ["terminal alpha", "terminal beta"] result_terminals (by decide) (by decide)
    rfl

/-- Claim C5: on the titles ["Firefox - Gmail", "Firefox - Gmail",
"Terminal"], whatever the HashMap iteration order, the heuristic
classifier reports majority title "firefox - gmail" with confidence 2/3
mapped to "メール確認", and exactly one alternative, "ターミナル作業" with
confidence 1/3. -/
theorem heuristic_gmail_vector (order : List String)
    (hord : ValidIterationOrder data_gmail order) :
    analyze_locally order data_gmail = some
      { activity := "メール確認"
        confidence := 2/3
        timestamp := 0
        alternatives := [⟨"ターミナル作業", 1/3⟩]
        window_title := some "firefox - gmail"
        calendar_event := none } := by
  have hpair : order = ["firefox - gmail", "terminal"] ∨
      order = ["terminal", "firefox - gmail"] := by
    apply eq_pair_of_nodup_of_mem_iff (by decide) hord.1
    intro s
    constructor
    · intro hs
      have hmem := hord.2.1 s hs
      have hl : lowered_titles data_gmail =
          ["firefox - gmail", "firefox - gmail", "terminal"] := rfl
      rw [hl] at hmem
      rcases (by simpa using hmem : s = "firefox - gmail" ∨
          s = "firefox - gmail" ∨ s = "terminal") with h | h | h
      · exact Or.inl h
      · exact Or.inl h
      · exact Or.inr h
    · intro hs
      apply hord.2.2
      rcases hs with h | h <;> subst h <;> decide
  rcases hpair with h | h <;> subst h
  · have heval : analyze_locally ["firefox - gmail", "terminal"] data_gmail =
        some
          { activity := "メール確認"
            confidence := ((2 : ℕ) : ℚ) / ((3 : ℕ) : ℚ)
            timestamp := 0
            alternatives := [⟨"ターミナル作業", ((1 : ℕ) : ℚ) / ((3 : ℕ) : ℚ)⟩]
            window_title := some "firefox - gmail"
            calendar_event := none } := rfl
    rw [heval]
    norm_num
  · have heval : analyze_locally ["terminal", "firefox - gmail"] data_gmail =
        some
          { activity := "メール確認"
            confidence := ((2 : ℕ) : ℚ) / ((3 : ℕ) : ℚ)
            timestamp := 0
            alternatives := [⟨"ターミナル作業", ((1 : ℕ) : ℚ) / ((3 : ℕ) : ℚ)⟩]
            window_title := some "firefox - gmail"
            calendar_event := none } := rfl
    rw [heval]
    norm_num

/-- Claim C5, witness: the hypotheses hold at one concrete iteration
order. -/
theorem heuristic_gmail_vector_witness :
    analyze_locally ["firefox - gmail", "terminal"] data_gmail = some
      { activity := "メール確認"
        confidence := 2/3
        timestamp := 0
        alternatives := [⟨"ターミナル作業", 1/3⟩]
        window_title := some "firefox - gmail"
        calendar_event := none } :=
  heuristic_gmail_vector ["firefox - gmail", "terminal"] (by decide)

/-- Claim C6 counterexample: with two distinct terminal titles (majority
"terminal alpha" twice, "terminal beta" once) the single alternative's
mapped label equals the primary label "ターミナル作業" — under both
possible iteration orders of the two keys.  The alternatives filter runs
on window titles, not on mapped labels. -/
theorem alternatives_can_repeat_primary_label :
    ((analyze_locally ["terminal alpha", "terminal beta"] data_terminals).map
      (fun r => r.alternatives.any (fun alt => alt.activity == r.activity))) =
      some true ∧
    ((analyze_locally ["terminal beta", "terminal alpha"] data_terminals).map
      (fun r => r.alternatives.any (fun alt => alt.activity == r.activity))) =
      some true :=
  ⟨rfl, rfl⟩

/-- Claim C6 as amended: every alternative arises from a lower-cased
window title distinct from the majority title (with that title's own
frequency), but its mapped label may coincide with the primary label. -/
theorem alternatives_from_distinct_titles (data : List CollectedData)
    (order : List String) (r : AnalysisResult)
    (h : analyze_locally order data = some r) (alt : ActivityCandidate)
    (halt : alt ∈ r.alternatives) :
    ∃ t majority, r.window_title = some majority ∧ t ≠ majority ∧
      alt.activity = categorize_by_keywords t ∧
      alt.confidence = (title_count data t : ℚ) / (data.length : ℚ) := by
  obtain ⟨d0, rest, rfl⟩ : ∃ d0 rest, data = d0 :: rest := by
    cases data with
    | nil => exact absurd h (by simp [analyze_locally])
    | cons d0 rest => exact ⟨d0, rest, rfl⟩
  rw [analyze_locally_cons] at h
  injection h with h
  subst h
  unfold local_alternatives at halt
  rw [List.mem_map] at halt
  obtain ⟨t, ht, halt⟩ := halt
  have htf := List.mem_of_mem_take ht
  rw [List.mem_filter] at htf
  exact ⟨t, _, rfl, of_decide_eq_true htf.2, by rw [← halt], by rw [← halt]⟩

/-- Claim C6 amended, witness: the terminal fixture's alternative. -/
theorem alternatives_from_distinct_titles_witness :
    ∃ t majority, result_terminals.window_title = some majority ∧ t ≠ majority ∧
      (⟨"ターミナル作業", ((1 : ℕ) : ℚ) / ((3 : ℕ) : ℚ)⟩ :
        ActivityCandidate).activity = categorize_by_keywords t ∧
      (⟨"ターミナル作業", ((1 : ℕ) : ℚ) / ((3 : ℕ) : ℚ)⟩ :
        ActivityCandidate).confidence =
        (title_count data_terminals t : ℚ) / (data_terminals.length : ℚ) :=
  alternatives_from_distinct_titles data_terminals
    ["terminal alpha", "terminal beta"] result_terminals rfl
    ⟨"ターミナル作業", ((1 : ℕ) : ℚ) / ((3 : ℕ) : ℚ)⟩
    (List.mem_singleton.mpr rfl)
